import Mathlib

/-!
Verification of the screenshot-organizer session pipeline
(`src/screenshot_organizer.py`) against its natural-language specification.

Embedding conventions:
* Timestamps (`datetime` values) are whole seconds on a naive wall clock,
  represented as `Nat`; the calendar date of a timestamp is its day number
  `t / 86400` and the hour of day is `t % 86400 / 3600`.  `timedelta`
  comparisons become arithmetic comparisons on seconds.
* Folder names are represented as their list of underscore-delimited tokens
  (`List String`); the Python code only ever builds names by joining tokens
  with `_` and reads them back with `split('_')`, and no generated token
  contains an underscore, so the two views are in bijection.  The
  `strftime` renderings of the date (`%Y-%m-%d`) and of the time of day
  (`%H%M%S`) are abstracted as the decimal renderings of the day number and
  of the second of day; like the originals they are injective and contain
  no underscore.
* Perceptual hashes are abstracted: a hash is a `Nat` and the hash distance
  (`ImageHash.__sub__`, a non-negative integer) is an arbitrary function
  `dist : Nat → Nat → Nat` that theorems quantify over.  The external
  fingerprinting collaborator (`calculate_phash`) is a function
  `phashOf : Screenshot → Option Nat`, `none` meaning failure.
* Python float similarity scores are embedded as exact rationals (`ℚ`);
  the scores are ratios of small set cardinalities.
-/

/-- An Item (`Screenshot` dataclass): path identity, creation timestamp in
seconds, byte size, and a memoizable perceptual fingerprint (`phash`),
`none` until computed or when the collaborator failed. -/
structure Screenshot where
  path : String
  created_at : Nat
  file_size : Nat
  phash : Option Nat := none
deriving DecidableEq, Repr

/-- A Cluster (`Session` dataclass): an ordered list of member Items plus a
mutable display identifier (`folder_name`), stored as its underscore-token
list. -/
structure Session where
  screenshots : List Screenshot := []
  folder_name : List String := []
deriving DecidableEq, Repr

/-- Default session used with `List.getD`. -/
def dS : Session := {}

/-- Default screenshot used with `List.getD`. -/
def dScr : Screenshot := { path := "", created_at := 0, file_size := 0 }

/-- `Session.start_time`: minimum member timestamp (`datetime.min`, embedded
as `0`, for an empty session). -/
def Session.start_time (s : Session) : Nat :=
  ((s.screenshots.map Screenshot.created_at).min?).getD 0

/-- `Session.end_time`: maximum member timestamp (`datetime.min`, embedded
as `0`, for an empty session). -/
def Session.end_time (s : Session) : Nat :=
  ((s.screenshots.map Screenshot.created_at).max?).getD 0

/-- `Session.count`: number of member screenshots. -/
def Session.count (s : Session) : Nat := s.screenshots.length

/-- Calendar date of a timestamp, as a day number (`datetime.date()`). -/
def dayOf (t : Nat) : Nat := t / 86400

/-- Second of day of a timestamp. -/
def secondOfDay (t : Nat) : Nat := t % 86400

/-- Hour of day of a timestamp (`datetime.hour`). -/
def hourOf (t : Nat) : Nat := secondOfDay t / 3600

/-- `crossed_4am_utc_boundary(time1, time2)`: true when the pair crosses the
04:00 boundary.  The source first tests, for timestamps on different
calendar dates, whether the hour of the later one is at least 4; falling
through, it tests whether the pair went from an hour below 4 to an hour at
least 4. -/
def crossed_4am_utc_boundary (time1 time2 : Nat) : Bool :=
  if dayOf time1 ≠ dayOf time2 ∧ 4 ≤ hourOf time2 then true
  else if hourOf time1 < 4 ∧ 4 ≤ hourOf time2 then true
  else false

/-- The walk inside `cluster_by_time`: `prev` is the previous screenshot,
`cur` the members of the open session.  A boundary crossing or a time gap
strictly above `gap_minutes` minutes closes the open session.  (The gap
`current.created_at - previous.created_at` uses truncated `Nat`
subtraction; for an unsorted pair Python compares a negative `timedelta`
against the non-negative threshold, which is true, and the truncated
difference `0` likewise passes the test, so the embedding agrees.) -/
def clusterWalk (gap_minutes : Nat) (prev : Screenshot) (cur : List Screenshot) :
    List Screenshot → List Session
  | [] => [{ screenshots := cur }]
  | c :: rest =>
    if crossed_4am_utc_boundary prev.created_at c.created_at then
      { screenshots := cur } :: clusterWalk gap_minutes c [c] rest
    else if c.created_at - prev.created_at ≤ gap_minutes * 60 then
      clusterWalk gap_minutes c (cur ++ [c]) rest
    else
      { screenshots := cur } :: clusterWalk gap_minutes c [c] rest

/-- `cluster_by_time(screenshots, gap_minutes)`: group screenshots into
sessions by time proximity, with a hard split at the 04:00 boundary.
The source closes the final open session only when non-empty; the open
session always contains at least one screenshot, so the embedding appends
it unconditionally. -/
def cluster_by_time (screenshots : List Screenshot) (gap_minutes : Nat) : List Session :=
  match screenshots with
  | [] => []
  | s :: rest => clusterWalk gap_minutes s [s] rest

/-- The memoization step of the refiner: request a fingerprint from the
collaborator `phashOf` only when the screenshot has none yet. -/
def computeHash (phashOf : Screenshot → Option Nat) (s : Screenshot) : Screenshot :=
  match s.phash with
  | some _ => s
  | none => { s with phash := phashOf s }

/-- The per-pair split decision of `refine_sessions_by_similarity`: when
either fingerprint is missing the pair is kept together; otherwise the pair
splits exactly when the hash distance exceeds the threshold.  `dist` is the
abstract hash distance (`current.phash - previous.phash`). -/
def splitDecision (dist : Nat → Nat → Nat) (threshold : Nat) (prev cur : Screenshot) : Bool :=
  match cur.phash, prev.phash with
  | some hc, some hp => decide (threshold < dist hc hp)
  | _, _ => false

/-- The walk inside `refine_sessions_by_similarity` over one session:
`prev` is the previous (already hashed) screenshot and `cur` the members of
the open refined sub-session. -/
def refineWalk (dist : Nat → Nat → Nat) (threshold : Nat) (prev : Screenshot)
    (cur : List Screenshot) : List Screenshot → List (List Screenshot)
  | [] => [cur]
  | c :: rest =>
    if splitDecision dist threshold prev c then
      cur :: refineWalk dist threshold c [c] rest
    else
      refineWalk dist threshold c (cur ++ [c]) rest

/-- Refinement of a single session: sessions with at most one member pass
through unchanged and are not fingerprinted; otherwise every member is
hashed first (memoized) and the session is split along the walk.  Fresh
sub-sessions are created with the default (empty) folder name, as
`Session()` is in the source. -/
def refineSession (dist : Nat → Nat → Nat) (phashOf : Screenshot → Option Nat)
    (threshold : Nat) (session : Session) : List Session :=
  if session.count ≤ 1 then [session]
  else
    match session.screenshots.map (computeHash phashOf) with
    | [] => [session]
    | h :: rest => (refineWalk dist threshold h [h] rest).map fun l => { screenshots := l }

/-- `refine_sessions_by_similarity(sessions, threshold)`: split each session
by visual similarity of adjacent members. -/
def refine_sessions_by_similarity (dist : Nat → Nat → Nat) (phashOf : Screenshot → Option Nat)
    (sessions : List Session) (threshold : Nat) : List Session :=
  sessions.flatMap (refineSession dist phashOf threshold)

/-- Rendering of the calendar date of a timestamp (`strftime %Y-%m-%d`),
abstracted as the decimal rendering of the day number: injective on
calendar dates and underscore-free, like the original. -/
def dateToken (t : Nat) : String := toString (dayOf t)

/-- Rendering of the time of day of a timestamp (`strftime %H%M%S`),
abstracted as the decimal rendering of the second of day: injective on
times of day and underscore-free, like the original. -/
def timeToken (t : Nat) : String := toString (secondOfDay t)

/-- The timestamp-mode identifier for a session starting at `t` with 1-based
per-date index `idx`: the token form of the string
made of the date, the time, the literal token session and the index. -/
def sessionName (t : Nat) (idx : Nat) : List String :=
  [dateToken t, timeToken t, "session", toString idx]

/-- Assign one session its timestamp-mode name. -/
def nameOne (s : Session) (idx : Nat) : Session :=
  { s with folder_name := sessionName s.start_time idx }

/-- The walk inside `generate_session_names` (timestamp mode): the source
groups sessions into an insertion-ordered dict keyed by the date string of
`start_time` and enumerates each group from 1, assigning `folder_name` in
place (so the list order is unchanged).  Because the grouping preserves
encounter order and the date rendering is injective, the index a session
receives is exactly one plus the number of sessions before it in the list
with the same calendar date; the embedding assigns names in that
equivalent direct form, carrying the list of already-seen sessions. -/
def nameSessionsAux (seen : List Session) : List Session → List Session
  | [] => []
  | s :: rest =>
    nameOne s ((seen.countP fun p => dayOf p.start_time == dayOf s.start_time) + 1)
      :: nameSessionsAux (seen ++ [s]) rest

/-- `generate_session_names(sessions)` in timestamp mode (the default;
smart naming only substitutes a different `folder_name` string and never
touches the members). -/
def generate_session_names (sessions : List Session) : List Session :=
  nameSessionsAux [] sessions

/-- Python `str.isdigit` on an underscore-token (ASCII domain): non-empty
and all digits. -/
def pyIsDigit (s : String) : Bool :=
  !s.data.isEmpty && s.data.all Char.isDigit

/-- The inner keyword extraction of `calculate_keyword_similarity`: when the
name has more than two underscore-delimited tokens the first two (date and
time) are skipped, otherwise all tokens are kept; then the literal token
session and purely numeric tokens are removed and the rest form a set. -/
def extractNameKeywords (name : List String) : Finset String :=
  let keywords := if 2 < name.length then name.drop 2 else name
  (keywords.filter fun k => k ≠ "session" && !(pyIsDigit k)).toFinset

/-- `calculate_keyword_similarity(name1, name2)`: 0 when either keyword set
is empty, otherwise the Jaccard index of the two keyword sets. -/
def calculate_keyword_similarity (name1 name2 : List String) : ℚ :=
  let keywords1 := extractNameKeywords name1
  let keywords2 := extractNameKeywords name2
  if keywords1 = ∅ ∨ keywords2 = ∅ then 0
  else
    let intersection := (keywords1 ∩ keywords2).card
    let union := (keywords1 ∪ keywords2).card
    if 0 < union then (intersection : ℚ) / union else 0

/-- The merge criterion of `merge_similar_sessions` for the adjacent pair
(`current`, `next_session`): name similarity at least the threshold, time
gap from the end of `current` to the start of `next_session` at most four
hours (the gap is a signed `timedelta`, hence `Int`), and no 04:00
boundary crossing between those two instants. -/
def shouldMerge (similarity_threshold : ℚ) (current next_session : Session) : Bool :=
  decide (similarity_threshold ≤
      calculate_keyword_similarity current.folder_name next_session.folder_name)
    && decide (((next_session.start_time : Int) - (current.end_time : Int)) ≤ 4 * 3600)
    && !(crossed_4am_utc_boundary current.end_time next_session.start_time)

/-- The walk inside `merge_similar_sessions`: on a merge the members of
`next_session` are appended to `current`, which keeps its own folder name,
and the extended `current` is compared with the following session; on a
non-merge `current` is finalized and `next_session` becomes the new
`current`. -/
def mergeWalk (similarity_threshold : ℚ) (current : Session) : List Session → List Session
  | [] => [current]
  | next_session :: rest =>
    if shouldMerge similarity_threshold current next_session then
      mergeWalk similarity_threshold
        { screenshots := current.screenshots ++ next_session.screenshots,
          folder_name := current.folder_name } rest
    else
      current :: mergeWalk similarity_threshold next_session rest

/-- `merge_similar_sessions(sessions, similarity_threshold)`: lists of at
most one session are returned unchanged; otherwise the left-to-right merge
walk runs with the first session as the initial `current`. -/
def merge_similar_sessions (sessions : List Session) (similarity_threshold : ℚ) :
    List Session :=
  if sessions.length ≤ 1 then sessions
  else
    match sessions with
    | [] => []
    | s :: rest => mergeWalk similarity_threshold s rest

/-- `identify_uncategorized(sessions)`: sessions with exactly one member
contribute their sole member to the uncategorized list (in session order);
all other sessions pass through, preserving relative order. -/
def identify_uncategorized : List Session → List Session × List Screenshot
  | [] => ([], [])
  | s :: rest =>
    if s.count = 1 then
      ((identify_uncategorized rest).1, s.screenshots ++ (identify_uncategorized rest).2)
    else
      (s :: (identify_uncategorized rest).1, (identify_uncategorized rest).2)

/-- The move loop of `execute_organization`: items are moved one by one in
plan order; `moveOk` models whether `shutil.move` succeeds for an item.
The source wraps the whole loop in a single try/except, so the first
failing move raises out of the loop: no later item is attempted, and the
function returns `False`.  The result is the final status together with
the list of items actually moved. -/
def moveAll (moveOk : Screenshot → Bool) : List Screenshot → Bool × List Screenshot
  | [] => (true, [])
  | s :: rest =>
    if moveOk s then
      ((moveAll moveOk rest).1, s :: (moveAll moveOk rest).2)
    else (false, [])

/-- `execute_organization(sessions, uncategorized, dry_run)`: in dry-run
mode nothing is moved and the status is success; otherwise the session
members (in session order) and then the uncategorized items are moved until
the first failure. -/
def execute_organization (sessions : List Session) (uncategorized : List Screenshot)
    (moveOk : Screenshot → Bool) (dry_run : Bool) : Bool × List Screenshot :=
  if dry_run then (true, [])
  else moveAll moveOk (sessions.flatMap Session.screenshots ++ uncategorized)

/-- All members of a session list, concatenated in order. -/
def sessionsItems (sessions : List Session) : List Screenshot :=
  sessions.flatMap Session.screenshots

/-- Forget the memoized fingerprint of a screenshot: the only field the
pipeline ever updates on an Item. -/
def Screenshot.stripHash (s : Screenshot) : Screenshot := { s with phash := none }

/-- The sequence of split decisions of the refinement walk over a member
list, starting from the previous screenshot `p`: one Boolean per adjacent
pair. -/
def splitDecisionsFrom (dist : Nat → Nat → Nat) (T : Nat) :
    Screenshot → List Screenshot → List Bool
  | _, [] => []
  | p, c :: rest => splitDecision dist T p c :: splitDecisionsFrom dist T c rest

/-- The split decisions of the refinement walk for each adjacent pair of a
member list: entry `i` is the decision for members `i` and `i+1`. -/
def adjacentDecisions (dist : Nat → Nat → Nat) (T : Nat) : List Screenshot → List Bool
  | [] => []
  | h :: rest => splitDecisionsFrom dist T h rest

/-- Number of sessions before position `k` of the list whose start date
equals the start date of the session at position `k`: the per-date
chronological rank used by the timestamp naming scheme. -/
def sameDateCountBefore (sessions : List Session) (k : Nat) : Nat :=
  (sessions.take k).countP fun p =>
    dayOf p.start_time == dayOf ((sessions.getD k dS).start_time)

/-- The keyword set the specification describes for the name-similarity
metric: the first two underscore-delimited tokens (date and time) are
discarded unconditionally, then the literal token session and purely
numeric tokens are removed and the rest form a set.  This definition
follows the words of the specification and is compared against
`extractNameKeywords`, which follows the source. -/
def specNameKeywords (name : List String) : Finset String :=
  ((name.drop 2).filter fun k => k ≠ "session" && !(pyIsDigit k)).toFinset

/-- The name-similarity the specification describes: the Jaccard index of
the two spec keyword sets, and 0 whenever either set is empty.  This
definition follows the words of the specification and is compared against
`calculate_keyword_similarity`, which follows the source. -/
def specKeywordSimilarity (name1 name2 : List String) : ℚ :=
  let k1 := specNameKeywords name1
  let k2 := specNameKeywords name2
  if k1 = ∅ ∨ k2 = ∅ then 0
  else ((k1 ∩ k2).card : ℚ) / ((k1 ∪ k2).card : ℚ)

/-- Concrete screenshot a, for the execution instances. -/
def scrA : Screenshot := { path := "a", created_at := 0, file_size := 0 }

/-- Concrete screenshot b, for the execution instances. -/
def scrB : Screenshot := { path := "b", created_at := 10, file_size := 0 }

/-- A move collaborator that succeeds exactly on path b. -/
def moveOkOnlyB : Screenshot → Bool := fun s => s.path == "b"

/-- A move collaborator that succeeds exactly on path a. -/
def moveOkOnlyA : Screenshot → Bool := fun s => s.path == "a"

/-- Concrete session starting at second 100 of day 0, for naming instances. -/
def nmA : Session := { screenshots := [{ path := "", created_at := 100, file_size := 0 }] }

/-- Concrete session starting at second 200 of day 0, for naming instances. -/
def nmB : Session := { screenshots := [{ path := "", created_at := 200, file_size := 0 }] }

/-- A screenshot carrying only a timestamp, used in concrete instances. -/
def tItem (t : Nat) : Screenshot := { path := "", created_at := t, file_size := 0 }

/-! ### Basic lemmas about concatenated members -/

theorem sessionsItems_nil : sessionsItems [] = [] := rfl

theorem sessionsItems_cons (s : Session) (rest : List Session) :
    sessionsItems (s :: rest) = s.screenshots ++ sessionsItems rest :=
  List.flatMap_cons s rest Session.screenshots

theorem sessionsItems_append (l1 l2 : List Session) :
    sessionsItems (l1 ++ l2) = sessionsItems l1 ++ sessionsItems l2 :=
  List.flatMap_append ..

theorem clusterWalk_items (G : Nat) (l : List Screenshot) :
    ∀ (prev : Screenshot) (cur : List Screenshot),
      sessionsItems (clusterWalk G prev cur l) = cur ++ l := by
  induction l with
  | nil =>
    intro prev cur
    simp [clusterWalk, sessionsItems]
  | cons c rest ih =>
    intro prev cur
    unfold clusterWalk
    split_ifs with h1 h2 <;>
      simp [sessionsItems_cons, ih, List.append_assoc]

theorem cluster_by_time_items (screenshots : List Screenshot) (G : Nat) :
    sessionsItems (cluster_by_time screenshots G) = screenshots := by
  cases screenshots with
  | nil => rfl
  | cons s rest => simpa using clusterWalk_items G rest s [s]

/-! ### C2: the diurnal boundary predicate -/

/-- C2: for `previous ≤ current`, `crossed_4am_utc_boundary` returns true
iff either the two timestamps fall on different calendar dates and the hour
of day of `current` is at least 4, or they fall on the same calendar date,
the hour of `previous` is below 4, and the hour of `current` is at least 4. -/
theorem crossed_boundary_characterization (t1 t2 : Nat) (h : t1 ≤ t2) :
    crossed_4am_utc_boundary t1 t2 = true ↔
      (dayOf t1 ≠ dayOf t2 ∧ 4 ≤ hourOf t2) ∨
        (dayOf t1 = dayOf t2 ∧ hourOf t1 < 4 ∧ 4 ≤ hourOf t2) := by
  unfold crossed_4am_utc_boundary
  split_ifs with h1 h2
  · simp only [true_iff]
    exact Or.inl h1
  · simp only [true_iff]
    rcases Classical.em (dayOf t1 = dayOf t2) with hd | hd
    · exact Or.inr ⟨hd, h2⟩
    · exact Or.inl ⟨hd, h2.2⟩
  · simp only [Bool.false_eq_true, false_iff]
    rintro (⟨hne, hh2⟩ | ⟨heq, hlt, hh2⟩)
    · exact h1 ⟨hne, hh2⟩
    · exact h2 ⟨hlt, hh2⟩

/-- Witness for C2 at 03:00:00 and 04:00:00 of day 0. -/
theorem crossed_boundary_characterization_witness :
    10800 ≤ 14400 ∧
      (crossed_4am_utc_boundary 10800 14400 = true ↔
        (dayOf 10800 ≠ dayOf 14400 ∧ 4 ≤ hourOf 14400) ∨
          (dayOf 10800 = dayOf 14400 ∧ hourOf 10800 < 4 ∧ 4 ≤ hourOf 14400)) :=
  ⟨by decide, crossed_boundary_characterization 10800 14400 (by decide)⟩

/-! ### C4: the boundary rule overrides the gap rule -/

/-- C4: on any day, two items at 03:59:00 and 04:00:30 with a 60-minute gap
threshold still split into two singleton clusters: the 04:00 boundary rule
fires although the 90-second gap is far below the threshold. -/
theorem boundary_overrides_gap (d : Nat) :
    (cluster_by_time [tItem (d * 86400 + 14340), tItem (d * 86400 + 14430)] 60).map
        Session.screenshots
      = [[tItem (d * 86400 + 14340)], [tItem (d * 86400 + 14430)]] := by
  have h1 : dayOf (d * 86400 + 14340) = dayOf (d * 86400 + 14430) := by
    unfold dayOf; omega
  have h2 : hourOf (d * 86400 + 14340) < 4 := by
    unfold hourOf secondOfDay; omega
  have h3 : 4 ≤ hourOf (d * 86400 + 14430) := by
    unfold hourOf secondOfDay; omega
  have hc : crossed_4am_utc_boundary (d * 86400 + 14340) (d * 86400 + 14430) = true := by
    unfold crossed_4am_utc_boundary
    rw [if_neg (by tauto), if_pos ⟨h2, h3⟩]
  simp [cluster_by_time, clusterWalk, tItem, hc]

/-! ### C3: the gap test at exactly the threshold -/

/-- C3 counterexample: at noon of day 0, items at `t0`, `t0+5m`, `t0+20m`
with a 15-minute threshold produce ONE cluster containing all three items —
not the two clusters `{t0, t0+5m}` and `{t0+20m}` the claim states —
because the 15-minute gap between the second and third item equals the
threshold and the code splits only on a gap strictly above it; no diurnal
boundary is crossed. -/
theorem gap_at_threshold_counterexample :
    crossed_4am_utc_boundary 43200 43500 = false ∧
      crossed_4am_utc_boundary 43500 44400 = false ∧
      (cluster_by_time [tItem 43200, tItem 43500, tItem 44400] 15).map Session.screenshots
        = [[tItem 43200, tItem 43500, tItem 44400]] ∧
      (cluster_by_time [tItem 43200, tItem 43500, tItem 44400] 15).map Session.screenshots
        ≠ [[tItem 43200, tItem 43500], [tItem 44400]] := by
  refine ⟨by decide, by decide, by decide, by decide⟩

/-- C3 amended: for items at `t0`, `t0+5m`, `t0+20m` with `G = 15m` and no
boundary crossing, the clusterer produces a single cluster of all three
items (a gap equal to `G` does not split); two clusters `{t0, t0+5m}` and
`{third}` arise exactly when the final gap strictly exceeds `G`, e.g. with
the third item at `t0+20m+1s`. -/
theorem gap_at_threshold_amended (t0 : Nat)
    (h1 : crossed_4am_utc_boundary t0 (t0 + 300) = false)
    (h2 : crossed_4am_utc_boundary (t0 + 300) (t0 + 1200) = false)
    (h3 : crossed_4am_utc_boundary (t0 + 300) (t0 + 1201) = false) :
    (cluster_by_time [tItem t0, tItem (t0 + 300), tItem (t0 + 1200)] 15).map
        Session.screenshots
      = [[tItem t0, tItem (t0 + 300), tItem (t0 + 1200)]] ∧
      (cluster_by_time [tItem t0, tItem (t0 + 300), tItem (t0 + 1201)] 15).map
          Session.screenshots
        = [[tItem t0, tItem (t0 + 300)], [tItem (t0 + 1201)]] := by
  constructor <;>
    (simp only [cluster_by_time, clusterWalk, tItem]
     split_ifs <;> simp_all <;> omega)

/-- Witness for the amended C3 at noon of day 0. -/
theorem gap_at_threshold_amended_witness :
    crossed_4am_utc_boundary 43200 43500 = false ∧
      crossed_4am_utc_boundary 43500 44400 = false ∧
      crossed_4am_utc_boundary 43500 44401 = false ∧
      ((cluster_by_time [tItem 43200, tItem 43500, tItem 44400] 15).map
          Session.screenshots
        = [[tItem 43200, tItem 43500, tItem 44400]] ∧
        (cluster_by_time [tItem 43200, tItem 43500, tItem 44401] 15).map
            Session.screenshots
          = [[tItem 43200, tItem 43500], [tItem 44401]]) :=
  ⟨by decide, by decide, by decide,
    gap_at_threshold_amended 43200 (by decide) (by decide) (by decide)⟩

/-! ### C10: symmetry and range of the name similarity -/

/-- C10: the name-similarity of the merger is symmetric and always lies in
the closed interval from 0 to 1. -/
theorem keyword_similarity_symm_bounded (a b : List String) :
    calculate_keyword_similarity a b = calculate_keyword_similarity b a ∧
      0 ≤ calculate_keyword_similarity a b ∧ calculate_keyword_similarity a b ≤ 1 := by
  refine ⟨?_, ?_, ?_⟩
  · unfold calculate_keyword_similarity
    by_cases h1 : extractNameKeywords a = ∅ <;> by_cases h2 : extractNameKeywords b = ∅ <;>
      simp [h1, h2, Finset.inter_comm, Finset.union_comm]
  · unfold calculate_keyword_similarity
    dsimp only
    split_ifs <;> positivity
  · unfold calculate_keyword_similarity
    dsimp only
    split_ifs with h1 h2
    · norm_num
    · apply div_le_one_of_le
      · exact_mod_cast Finset.card_le_card Finset.inter_subset_union
      · positivity
    · norm_num

/-! ### C5: the merge decision -/

theorem shouldMerge_iff (S : ℚ) (current next_session : Session) :
    shouldMerge S current next_session = true ↔
      S ≤ calculate_keyword_similarity current.folder_name next_session.folder_name ∧
        ((next_session.start_time : Int) - (current.end_time : Int)) ≤ 4 * 3600 ∧
        crossed_4am_utc_boundary current.end_time next_session.start_time = false := by
  unfold shouldMerge
  simp [Bool.and_eq_true, decide_eq_true_eq, Bool.not_eq_true', and_assoc]

/-- C5: the merger leaves lists of at most one session unchanged, and one
step of its left-to-right walk merges the adjacent pair (`current`,
`next_session`) exactly when the name similarity reaches the threshold, the
gap from the end of `current` to the start of `next_session` is at most
four hours, and the pair does not cross the 04:00 boundary; on a merge the
members of `next_session` are appended to `current`, which keeps its own
identifier and is compared to the following session, and on a non-merge
`current` is finalized and `next_session` becomes the new `current`. -/
theorem merger_step (S : ℚ) (current next_session s : Session) (rest : List Session) :
    merge_similar_sessions [] S = [] ∧
      merge_similar_sessions [s] S = [s] ∧
      mergeWalk S current (next_session :: rest)
        = if calculate_keyword_similarity current.folder_name next_session.folder_name ≥ S ∧
              ((next_session.start_time : Int) - (current.end_time : Int)) ≤ 4 * 3600 ∧
              crossed_4am_utc_boundary current.end_time next_session.start_time = false
          then
            mergeWalk S
              { screenshots := current.screenshots ++ next_session.screenshots,
                folder_name := current.folder_name } rest
          else current :: mergeWalk S next_session rest := by
  refine ⟨rfl, rfl, ?_⟩
  by_cases h : S ≤ calculate_keyword_similarity current.folder_name next_session.folder_name ∧
      ((next_session.start_time : Int) - (current.end_time : Int)) ≤ 4 * 3600 ∧
      crossed_4am_utc_boundary current.end_time next_session.start_time = false
  · rw [if_pos h]
    conv_lhs => rw [mergeWalk]
    rw [if_pos ((shouldMerge_iff S current next_session).mpr h)]
  · rw [if_neg h]
    conv_lhs => rw [mergeWalk]
    rw [if_neg fun hh => h ((shouldMerge_iff S current next_session).mp hh)]

/-! ### Stage lemmas: each stage preserves the concatenated members -/

theorem refineWalk_items (dist : Nat → Nat → Nat) (T : Nat) (l : List Screenshot) :
    ∀ (prev : Screenshot) (cur : List Screenshot),
      sessionsItems ((refineWalk dist T prev cur l).map fun m => { screenshots := m })
        = cur ++ l := by
  induction l with
  | nil =>
    intro prev cur
    simp [refineWalk, sessionsItems]
  | cons c rest ih =>
    intro prev cur
    unfold refineWalk
    split_ifs with h <;> simp [sessionsItems_cons, ih, List.append_assoc]

theorem refineSession_items (dist : Nat → Nat → Nat) (phashOf : Screenshot → Option Nat)
    (T : Nat) (s : Session) :
    sessionsItems (refineSession dist phashOf T s)
      = if s.count ≤ 1 then s.screenshots
        else s.screenshots.map (computeHash phashOf) := by
  unfold refineSession
  split_ifs with h
  · simp [sessionsItems]
  · cases hm : s.screenshots.map (computeHash phashOf) with
    | nil =>
      exfalso
      have : s.screenshots = [] := by
        cases hs : s.screenshots with
        | nil => rfl
        | cons a l => rw [hs] at hm; simp at hm
      exact h (by simp [Session.count, this])
    | cons a rest =>
      simpa using refineWalk_items dist T rest a [a]

theorem stripHash_computeHash (phashOf : Screenshot → Option Nat) (s : Screenshot) :
    (computeHash phashOf s).stripHash = s.stripHash := by
  unfold computeHash
  cases h : s.phash <;> rfl

theorem refineSession_items_strip (dist : Nat → Nat → Nat)
    (phashOf : Screenshot → Option Nat) (T : Nat) (s : Session) :
    (sessionsItems (refineSession dist phashOf T s)).map Screenshot.stripHash
      = s.screenshots.map Screenshot.stripHash := by
  rw [refineSession_items]
  split_ifs
  · rfl
  · rw [List.map_map]
    exact List.map_congr_left fun a _ => stripHash_computeHash phashOf a

theorem refine_items_strip (dist : Nat → Nat → Nat) (phashOf : Screenshot → Option Nat)
    (sessions : List Session) (T : Nat) :
    (sessionsItems (refine_sessions_by_similarity dist phashOf sessions T)).map
        Screenshot.stripHash
      = (sessionsItems sessions).map Screenshot.stripHash := by
  induction sessions with
  | nil => rfl
  | cons s rest ih =>
    unfold refine_sessions_by_similarity at *
    rw [List.flatMap_cons, sessionsItems_append, List.map_append, ih,
      sessionsItems_cons, List.map_append, refineSession_items_strip]

theorem nameSessionsAux_items (l : List Session) :
    ∀ seen, sessionsItems (nameSessionsAux seen l) = sessionsItems l := by
  induction l with
  | nil => intro seen; rfl
  | cons s rest ih =>
    intro seen
    unfold nameSessionsAux
    rw [sessionsItems_cons, sessionsItems_cons, ih]
    rfl

theorem generate_session_names_items (sessions : List Session) :
    sessionsItems (generate_session_names sessions) = sessionsItems sessions :=
  nameSessionsAux_items sessions []

theorem mergeWalk_items (S : ℚ) (l : List Session) :
    ∀ current, sessionsItems (mergeWalk S current l)
      = current.screenshots ++ sessionsItems l := by
  induction l with
  | nil =>
    intro current
    simp [mergeWalk, sessionsItems]
  | cons n rest ih =>
    intro current
    unfold mergeWalk
    split_ifs with h
    · rw [ih]
      simp [sessionsItems_cons, List.append_assoc]
    · rw [sessionsItems_cons, sessionsItems_cons, ih]

theorem merge_items (sessions : List Session) (S : ℚ) :
    sessionsItems (merge_similar_sessions sessions S) = sessionsItems sessions := by
  unfold merge_similar_sessions
  split_ifs with h
  · rfl
  · cases sessions with
    | nil => rfl
    | cons s rest => rw [mergeWalk_items, sessionsItems_cons]

theorem identify_perm (sessions : List Session) :
    (sessionsItems (identify_uncategorized sessions).1
      ++ (identify_uncategorized sessions).2).Perm (sessionsItems sessions) := by
  induction sessions with
  | nil => simp [identify_uncategorized, sessionsItems]
  | cons s rest ih =>
    unfold identify_uncategorized
    split_ifs with h
    · rw [sessionsItems_cons]
      have h1 : sessionsItems (identify_uncategorized rest).1
            ++ (s.screenshots ++ (identify_uncategorized rest).2)
          = (sessionsItems (identify_uncategorized rest).1 ++ s.screenshots)
            ++ (identify_uncategorized rest).2 := by rw [List.append_assoc]
      rw [h1]
      refine List.Perm.trans (List.perm_append_comm.append_right _) ?_
      rw [List.append_assoc]
      exact ih.append_left s.screenshots
    · rw [sessionsItems_cons, sessionsItems_cons, List.append_assoc]
      exact ih.append_left s.screenshots

/-! ### C1: the partition property of the whole pipeline -/

/-- C1: for every input sequence and every choice of thresholds and
external collaborators, the concatenated members of the temporal clusters
equal the input exactly and in order; through similarity refinement,
naming, and merging the concatenation still equals the input exactly and
in order up to fingerprint memoization (the only Item field the pipeline
ever writes); and after singleton splitting every input Item appears
exactly once across the regular sessions and the uncategorized items
(their joint contents are a permutation of the input, nothing dropped or
duplicated). -/
theorem pipeline_partition (items : List Screenshot) (G : Nat)
    (dist : Nat → Nat → Nat) (phashOf : Screenshot → Option Nat) (T : Nat) (S : ℚ) :
    sessionsItems (cluster_by_time items G) = items ∧
      (sessionsItems
          (refine_sessions_by_similarity dist phashOf (cluster_by_time items G) T)).map
          Screenshot.stripHash
        = items.map Screenshot.stripHash ∧
      (sessionsItems (generate_session_names
          (refine_sessions_by_similarity dist phashOf (cluster_by_time items G) T))).map
          Screenshot.stripHash
        = items.map Screenshot.stripHash ∧
      (sessionsItems (merge_similar_sessions
          (generate_session_names
            (refine_sessions_by_similarity dist phashOf (cluster_by_time items G) T)) S)).map
          Screenshot.stripHash
        = items.map Screenshot.stripHash ∧
      ((sessionsItems (identify_uncategorized (merge_similar_sessions
            (generate_session_names
              (refine_sessions_by_similarity dist phashOf (cluster_by_time items G) T)) S)).1
          ++ (identify_uncategorized (merge_similar_sessions
            (generate_session_names
              (refine_sessions_by_similarity dist phashOf (cluster_by_time items G) T)) S)).2).map
          Screenshot.stripHash).Perm
        (items.map Screenshot.stripHash) := by
  have h1 : sessionsItems (cluster_by_time items G) = items :=
    cluster_by_time_items items G
  have h2 :
      (sessionsItems
          (refine_sessions_by_similarity dist phashOf (cluster_by_time items G) T)).map
          Screenshot.stripHash
        = items.map Screenshot.stripHash := by
    rw [refine_items_strip, h1]
  have h3 :
      (sessionsItems (generate_session_names
          (refine_sessions_by_similarity dist phashOf (cluster_by_time items G) T))).map
          Screenshot.stripHash
        = items.map Screenshot.stripHash := by
    rw [generate_session_names_items]
    exact h2
  have h4 :
      (sessionsItems (merge_similar_sessions
          (generate_session_names
            (refine_sessions_by_similarity dist phashOf (cluster_by_time items G) T)) S)).map
          Screenshot.stripHash
        = items.map Screenshot.stripHash := by
    rw [merge_items]
    exact h3
  refine ⟨h1, h2, h3, h4, ?_⟩
  have h6 := (identify_perm (merge_similar_sessions
    (generate_session_names
      (refine_sessions_by_similarity dist phashOf (cluster_by_time items G) T)) S)).map
    Screenshot.stripHash
  exact h6.trans (by rw [h4])

/-! ### C9: unavailable fingerprints never split and never abort -/

theorem refineWalk_length (dist : Nat → Nat → Nat) (T : Nat) (l : List Screenshot) :
    ∀ (prev : Screenshot) (cur : List Screenshot),
      (refineWalk dist T prev cur l).length
        = 1 + (splitDecisionsFrom dist T prev l).count true := by
  induction l with
  | nil =>
    intro prev cur
    simp [refineWalk, splitDecisionsFrom]
  | cons c rest ih =>
    intro prev cur
    unfold refineWalk splitDecisionsFrom
    split_ifs with h <;> simp [ih, h, List.count_cons] <;> omega

theorem adjacentDecisions_getD (dist : Nat → Nat → Nat) (T : Nat) :
    ∀ (l : List Screenshot) (i : Nat), i + 1 < l.length →
      (adjacentDecisions dist T l).getD i true
        = splitDecision dist T (l.getD i dScr) (l.getD (i + 1) dScr)
  | [], i, h => by simp at h
  | [a], i, h => by simp at h
  | a :: b :: rest, 0, h => rfl
  | a :: b :: rest, (i + 1), h => by
    have ih := adjacentDecisions_getD dist T (b :: rest) i (by simpa using h)
    simpa [adjacentDecisions, splitDecisionsFrom] using ih

theorem splitDecision_none (dist : Nat → Nat → Nat) (T : Nat) (prev cur : Screenshot)
    (h : prev.phash = none ∨ cur.phash = none) :
    splitDecision dist T prev cur = false := by
  unfold splitDecision
  cases hc : cur.phash <;> cases hp : prev.phash <;> simp_all

/-- C9: for any session with at least two members, refinement hashes the
members and keeps every one of them, in order, in the concatenation of the
refined sub-sessions (a fingerprinting failure never aborts refinement);
the number of refined sub-sessions is one plus the number of true adjacent
split decisions; and the split decision of any adjacent pair in which
either member has no fingerprint (the collaborator failed) is false, so
such a pair is treated as similar and never contributes a split. -/
theorem refiner_unavailable_no_split (dist : Nat → Nat → Nat)
    (phashOf : Screenshot → Option Nat) (T : Nat) (session : Session)
    (h2 : 2 ≤ session.count) :
    sessionsItems (refineSession dist phashOf T session)
        = session.screenshots.map (computeHash phashOf) ∧
      (refineSession dist phashOf T session).length
        = 1 + (adjacentDecisions dist T
            (session.screenshots.map (computeHash phashOf))).count true ∧
      ∀ i, i + 1 < session.screenshots.length →
        ((session.screenshots.map (computeHash phashOf)).getD i dScr).phash = none ∨
          ((session.screenshots.map (computeHash phashOf)).getD (i + 1) dScr).phash = none →
        (adjacentDecisions dist T
            (session.screenshots.map (computeHash phashOf))).getD i true = false := by
  have hle : ¬session.count ≤ 1 := by omega
  refine ⟨?_, ?_, ?_⟩
  · rw [refineSession_items, if_neg hle]
  · unfold refineSession
    rw [if_neg hle]
    cases hm : session.screenshots.map (computeHash phashOf) with
    | nil =>
      exfalso
      have : session.screenshots = [] := by
        cases hs : session.screenshots with
        | nil => rfl
        | cons a l => rw [hs] at hm; simp at hm
      rw [Session.count, this] at h2
      simp at h2
    | cons a rest =>
      rw [List.length_map, refineWalk_length]
      rfl
  · intro i hi hnone
    have hlen : i + 1 < (session.screenshots.map (computeHash phashOf)).length := by
      simpa using hi
    rw [adjacentDecisions_getD dist T _ i hlen]
    exact splitDecision_none dist T _ _ hnone

/-- Witness for C9: a two-member session whose fingerprinting collaborator
always fails stays one single sub-session. -/
theorem refiner_unavailable_no_split_witness :
    2 ≤ (Session.mk [scrA, scrB] []).count ∧
      (sessionsItems (refineSession (fun x y => 0) (fun x => none) 10
            (Session.mk [scrA, scrB] []))
          = (Session.mk [scrA, scrB] []).screenshots.map (computeHash (fun x => none)) ∧
        (refineSession (fun x y => 0) (fun x => none) 10 (Session.mk [scrA, scrB] [])).length
          = 1 + (adjacentDecisions (fun x y => 0) 10
              ((Session.mk [scrA, scrB] []).screenshots.map
                (computeHash (fun x => none)))).count true ∧
        ∀ i, i + 1 < (Session.mk [scrA, scrB] []).screenshots.length →
          (((Session.mk [scrA, scrB] []).screenshots.map
              (computeHash (fun x => none))).getD i dScr).phash = none ∨
            (((Session.mk [scrA, scrB] []).screenshots.map
              (computeHash (fun x => none))).getD (i + 1) dScr).phash = none →
          (adjacentDecisions (fun x y => 0) 10
              ((Session.mk [scrA, scrB] []).screenshots.map
                (computeHash (fun x => none)))).getD i true = false) :=
  ⟨by decide,
    refiner_unavailable_no_split (fun x y => 0) (fun x => none) 10
      (Session.mk [scrA, scrB] []) (by decide)⟩

/-! ### C6: behaviour of the executor on a move failure -/

/-- C6 counterexample: in a plan of two items where moving the first item
fails and moving the second would succeed, the executor stops at the first
failure: it returns failure with an empty moved list, so the second move
was never attempted although it would have succeeded.  This contradicts
the claim that a failure is caught per item and later moves are still
attempted. -/
theorem execution_per_item_counterexample :
    moveOkOnlyB scrB = true ∧
      execute_organization [{ screenshots := [scrA, scrB] }] [] moveOkOnlyB false
        = (false, []) :=
  ⟨by decide, by decide⟩

theorem moveAll_abort (moveOk : Screenshot → Bool) (bad : Screenshot)
    (post : List Screenshot) :
    ∀ pre : List Screenshot, (∀ s ∈ pre, moveOk s = true) → moveOk bad = false →
      moveAll moveOk (pre ++ bad :: post) = (false, pre) := by
  intro pre
  induction pre with
  | nil =>
    intro _ hbad
    simp [moveAll, hbad]
  | cons p ps ih =>
    intro hpre hbad
    have hp : moveOk p = true := hpre p (by simp)
    have hrest := ih (fun s hs => hpre s (by simp [hs])) hbad
    simp [moveAll, hp, hrest]

/-- C6 amended: a move failure is caught at run level, not per item: when
the plan (session members in session order, then uncategorized items) is
`pre ++ bad :: post` with every move in `pre` succeeding and the move of
`bad` failing, execution moves exactly the items of `pre`, never attempts
`bad` or any item of `post`, and reports failure through its final
status. -/
theorem execution_abort_amended (sessions : List Session)
    (uncategorized : List Screenshot) (moveOk : Screenshot → Bool)
    (pre : List Screenshot) (bad : Screenshot) (post : List Screenshot)
    (hplan : sessions.flatMap Session.screenshots ++ uncategorized = pre ++ bad :: post)
    (hpre : ∀ s ∈ pre, moveOk s = true) (hbad : moveOk bad = false) :
    execute_organization sessions uncategorized moveOk false = (false, pre) := by
  unfold execute_organization
  rw [if_neg (by simp), hplan]
  exact moveAll_abort moveOk bad post pre hpre hbad

/-- Witness for the amended C6. -/
theorem execution_abort_amended_witness :
    ([Session.mk [scrA, scrB] []].flatMap Session.screenshots ++ []
        = [scrA] ++ scrB :: []) ∧
      (∀ s ∈ [scrA], moveOkOnlyA s = true) ∧
      moveOkOnlyA scrB = false ∧
      execute_organization [Session.mk [scrA, scrB] []] [] moveOkOnlyA false
        = (false, [scrA]) :=
  ⟨by decide, by decide, by decide,
    execution_abort_amended [Session.mk [scrA, scrB] []] [] moveOkOnlyA
      [scrA] scrB [] (by decide) (by decide) (by decide)⟩

/-! ### C7: the name-similarity metric against its specification -/

/-- C7 counterexample: for the one-token identifier pair made of alpha and
alpha (fewer than three underscore-delimited tokens) the source keeps all
tokens, giving keyword set containing alpha and similarity 1, while the
specification discards the first two tokens unconditionally, giving empty
keyword sets and similarity 0. -/
theorem keyword_similarity_spec_counterexample :
    calculate_keyword_similarity ["alpha"] ["alpha"] = 1 ∧
      specKeywordSimilarity ["alpha"] ["alpha"] = 0 ∧
      calculate_keyword_similarity ["alpha"] ["alpha"]
        ≠ specKeywordSimilarity ["alpha"] ["alpha"] := by
  have hk : extractNameKeywords ["alpha"] = {"alpha"} := by decide
  have hs : specNameKeywords ["alpha"] = ∅ := by decide
  have e1 : calculate_keyword_similarity ["alpha"] ["alpha"] = 1 := by
    simp only [calculate_keyword_similarity, hk]
    norm_num
  have e2 : specKeywordSimilarity ["alpha"] ["alpha"] = 0 := by
    simp only [specKeywordSimilarity, hs]
    norm_num
  exact ⟨e1, e2, by rw [e1, e2]; norm_num⟩

/-- C7 amended: for identifiers with more than two underscore-delimited
tokens (as every generated identifier has), the name-similarity of the
source equals the Jaccard index of the keyword sets described by the
specification, and it is 0 whenever either of those keyword sets is empty;
for identifiers with at most two tokens the source keeps all tokens
instead of discarding the first two, and the equality can fail. -/
theorem keyword_similarity_spec_amended (name1 name2 : List String)
    (h1 : 2 < name1.length) (h2 : 2 < name2.length) :
    calculate_keyword_similarity name1 name2 = specKeywordSimilarity name1 name2 ∧
      ((specNameKeywords name1 = ∅ ∨ specNameKeywords name2 = ∅) →
        calculate_keyword_similarity name1 name2 = 0) := by
  have e1 : extractNameKeywords name1 = specNameKeywords name1 := by
    unfold extractNameKeywords specNameKeywords
    rw [if_pos h1]
  have e2 : extractNameKeywords name2 = specNameKeywords name2 := by
    unfold extractNameKeywords specNameKeywords
    rw [if_pos h2]
  constructor
  · unfold calculate_keyword_similarity specKeywordSimilarity
    dsimp only
    rw [e1, e2]
    split_ifs with hemp hu
    · rfl
    · rfl
    · exfalso
      apply hemp
      have hcard : (specNameKeywords name1 ∪ specNameKeywords name2).card = 0 := by omega
      have hU : specNameKeywords name1 ∪ specNameKeywords name2 = ∅ :=
        Finset.card_eq_zero.mp hcard
      exact Or.inl (Finset.union_eq_empty.mp hU).1
  · intro h
    unfold calculate_keyword_similarity
    dsimp only
    rw [e1, e2, if_pos h]

/-- Witness for the amended C7 on two generated-shape identifiers sharing
the keyword alpha. -/
theorem keyword_similarity_spec_amended_witness :
    2 < (["0", "1", "session", "2", "alpha"] : List String).length ∧
      2 < (["0", "2", "alpha"] : List String).length ∧
      (calculate_keyword_similarity ["0", "1", "session", "2", "alpha"] ["0", "2", "alpha"]
          = specKeywordSimilarity ["0", "1", "session", "2", "alpha"] ["0", "2", "alpha"] ∧
        ((specNameKeywords ["0", "1", "session", "2", "alpha"] = ∅ ∨
            specNameKeywords ["0", "2", "alpha"] = ∅) →
          calculate_keyword_similarity ["0", "1", "session", "2", "alpha"]
            ["0", "2", "alpha"] = 0)) :=
  ⟨by decide, by decide,
    keyword_similarity_spec_amended ["0", "1", "session", "2", "alpha"] ["0", "2", "alpha"]
      (by decide) (by decide)⟩

/-! ### C8: the timestamp naming scheme -/

theorem nameSessionsAux_length (l : List Session) :
    ∀ seen, (nameSessionsAux seen l).length = l.length := by
  induction l with
  | nil => intro seen; rfl
  | cons s rest ih =>
    intro seen
    simp [nameSessionsAux, ih]

theorem generate_session_names_length (sessions : List Session) :
    (generate_session_names sessions).length = sessions.length :=
  nameSessionsAux_length sessions []

theorem nameSessionsAux_getD (l : List Session) :
    ∀ (seen : List Session) (k : Nat), k < l.length →
      (nameSessionsAux seen l).getD k dS
        = nameOne (l.getD k dS)
            (((seen ++ l.take k).countP fun p =>
                dayOf p.start_time == dayOf ((l.getD k dS).start_time)) + 1) := by
  induction l with
  | nil =>
    intro seen k hk
    simp at hk
  | cons s rest ih =>
    intro seen k hk
    cases k with
    | zero => simp [nameSessionsAux]
    | succ j =>
      have hj : j < rest.length := by simpa using hk
      have ihj := ih (seen ++ [s]) j hj
      simp only [nameSessionsAux, List.getD_cons_succ, List.take_succ_cons]
      rw [ihj]
      simp [List.append_assoc]

theorem generate_session_names_getD (sessions : List Session) (k : Nat)
    (hk : k < sessions.length) :
    (generate_session_names sessions).getD k dS
      = nameOne (sessions.getD k dS) (sameDateCountBefore sessions k + 1) := by
  have h := nameSessionsAux_getD sessions [] k hk
  simpa [generate_session_names, sameDateCountBefore] using h

theorem sameDate_index_mono (sessions : List Session) (i j : Nat)
    (hi : i < sessions.length) (hij : i < j)
    (hday : dayOf ((sessions.getD i dS).start_time)
      = dayOf ((sessions.getD j dS).start_time)) :
    sameDateCountBefore sessions i < sameDateCountBefore sessions j := by
  have hbase : sameDateCountBefore sessions i
      = (sessions.take i).countP fun p =>
          dayOf p.start_time == dayOf ((sessions.getD j dS).start_time) := by
    simp only [sameDateCountBefore, hday]
  have hget : sessions[i]? = some (sessions.getD i dS) := by
    rw [List.getElem?_eq_getElem hi, List.getD_eq_getElem sessions dS hi]
  have hstep : (sessions.take (i + 1)).countP (fun p =>
        dayOf p.start_time == dayOf ((sessions.getD j dS).start_time))
      = ((sessions.take i).countP fun p =>
          dayOf p.start_time == dayOf ((sessions.getD j dS).start_time)) + 1 := by
    rw [List.take_succ, hget, List.countP_append]
    have hday' : dayOf ((sessions[i]?.getD dS).start_time)
        = dayOf ((sessions[j]?.getD dS).start_time) := by
      rw [← List.getD_eq_getElem?_getD, ← List.getD_eq_getElem?_getD]
      exact hday
    simp [hday']
  have htake : sessions.take (i + 1) = (sessions.take j).take (i + 1) := by
    rw [List.take_take, min_eq_left (by omega)]
  have hmono : (sessions.take (i + 1)).countP (fun p =>
        dayOf p.start_time == dayOf ((sessions.getD j dS).start_time))
      ≤ (sessions.take j).countP fun p =>
          dayOf p.start_time == dayOf ((sessions.getD j dS).start_time) := by
    rw [htake]
    exact (List.take_sublist ..).countP_le _
  rw [hbase]
  unfold sameDateCountBefore
  omega

/-- C8: in timestamp mode, on a chronologically ordered session list EVERY
session, unconditionally, receives an identifier of the token form of
`{date}_{time}_session_{index}` with date and time derived from the start
time of the session and index equal to one plus the number of earlier
same-date sessions (the 1-based per-date chronological ordinal); and any
two distinct sessions sharing a calendar date receive distinct indices.
The assignment is a pure function of the session list, so it is identical
across runs. -/
theorem timestamp_naming_indexing (sessions : List Session)
    (hchron : List.Chain' (fun a b => a.start_time ≤ b.start_time) sessions) :
    (∀ i, i < sessions.length →
      ((generate_session_names sessions).getD i dS).folder_name
        = sessionName ((sessions.getD i dS).start_time)
            (sameDateCountBefore sessions i + 1)) ∧
      ∀ i j, i < sessions.length → j < sessions.length → i < j →
        dayOf ((sessions.getD i dS).start_time)
            = dayOf ((sessions.getD j dS).start_time) →
        sameDateCountBefore sessions i + 1 ≠ sameDateCountBefore sessions j + 1 := by
  constructor
  · intro i hi
    rw [generate_session_names_getD sessions i hi]
    rfl
  · intro i j hi hj hij hday
    have h := sameDate_index_mono sessions i j hi hij hday
    omega

/-- Witness for C8 on two same-day sessions starting at seconds 100 and
200 of day 0. -/
theorem timestamp_naming_indexing_witness :
    List.Chain' (fun a b : Session => a.start_time ≤ b.start_time) [nmA, nmB] ∧
      ((∀ i, i < ([nmA, nmB] : List Session).length →
        ((generate_session_names [nmA, nmB]).getD i dS).folder_name
          = sessionName ((([nmA, nmB] : List Session).getD i dS).start_time)
              (sameDateCountBefore [nmA, nmB] i + 1)) ∧
        ∀ i j, i < ([nmA, nmB] : List Session).length →
          j < ([nmA, nmB] : List Session).length → i < j →
          dayOf ((([nmA, nmB] : List Session).getD i dS).start_time)
              = dayOf ((([nmA, nmB] : List Session).getD j dS).start_time) →
          sameDateCountBefore [nmA, nmB] i + 1 ≠ sameDateCountBefore [nmA, nmB] j + 1) :=
  ⟨List.chain'_cons.mpr ⟨by decide, List.chain'_singleton nmB⟩,
    timestamp_naming_indexing [nmA, nmB]
      (List.chain'_cons.mpr ⟨by decide, List.chain'_singleton nmB⟩)⟩
